import Mathlib

/-!
Shallow embedding of `src/silt/config.py` (the SILT configuration system).

The Python module defines `class Config(dict)` with four population
methods: `from_object`, `from_yaml`, `from_file`, `update_from_mapping`.
We model the dict as an insertion-ordered association list from `String`
keys to values of an arbitrary type `α`; `self[key] = value` replaces the
value in place when the key is present and appends otherwise, exactly as
a Python dict does.  File access and the caller-supplied deserializer are
modelled by their outcomes (success with the produced mapping, or a
raised exception), since the store only ever observes those outcomes.
Characters are modelled over the basic-latin range, matching Lean's
`Char.isLower`/`Char.isUpper`/`Char.toUpper`.
-/

namespace Silt

/-- Python `str.isupper()` (ASCII model): every cased character is
uppercase and there is at least one cased character. -/
def str_isupper (s : String) : Bool :=
  s.data.all (fun c => !c.isLower) && s.data.any (fun c => c.isUpper || c.isLower)

/-- The uppercase transform of a string, character by character — the
spec's "its own uppercase transform". -/
def upperTransform (s : String) : List Char :=
  s.data.map Char.toUpper

/-- The spec's uppercase predicate, stated in the spec's own words: the
string equals its own uppercase transform and contains at least one
alphabetic character. -/
def spec_upper_pred (s : String) : Bool :=
  (upperTransform s == s.data) && s.data.any Char.isAlpha

/-- The store: `Config` is a Python dict, modelled as an insertion-ordered
association list. -/
abbrev Store (α : Type) := List (String × α)

/-- Does the store hold an entry for key `k`? -/
def hasKey (s : Store α) (k : String) : Bool :=
  s.any (fun p => p.1 == k)

/-- Python dict lookup `self[k]`, as an `Option`. -/
def getKey (s : Store α) (k : String) : Option α :=
  (s.find? (fun p => p.1 == k)).map Prod.snd

/-- In-place replacement of the value stored at key `k`. -/
def replaceVal (k : String) (v : α) (p : String × α) : String × α :=
  if p.1 == k then (k, v) else p

/-- Python dict assignment `self[k] = v`: replace in place when the key is
present, append otherwise. -/
def setKey (s : Store α) (k : String) (v : α) : Store α :=
  if hasKey s k then s.map (replaceVal k v)
  else s ++ [(k, v)]

/-- One iteration of the filtered write loop (config.py lines 100-102):
`if key.isupper(): self[key] = value`. -/
def loadPair (s : Store α) (p : String × α) : Store α :=
  if str_isupper p.1 then setKey s p.1 p.2 else s

/-- The filtered write loop `for key, value in mapping: ...` over one batch
of pairs (config.py lines 100-102). -/
def loadPairs (s : Store α) (m : List (String × α)) : Store α :=
  m.foldl loadPair s

/-- `Config.__init__(self, defaults)` (config.py lines 25-26):
`dict.__init__(self, defaults)` copies the defaults mapping into the fresh
dict, with no filtering of any kind. -/
def Config.init (defaults : List (String × α)) : Store α :=
  defaults.foldl (fun s p => setKey s p.1 p.2) []

/-- `Config.from_object` (config.py lines 28-36): iterate `dir(obj)` and
write every attribute whose name is `isupper`.  The source object is given
as its attribute list (name, current value) in `dir` order. -/
def from_object (self : Store α) (obj : List (String × α)) : Store α :=
  obj.foldl loadPair self

/-- A positional source accepted by `update_from_mapping`: either an object
with an `items()` view (a mapping) or a plain iterable of key-value pairs.
Both normalize to their pair list (config.py lines 86-89). -/
inductive Source (α : Type) where
  | mapping (items : List (String × α))
  | pairs (items : List (String × α))

/-- Normalization of a positional source (config.py lines 86-89): a mapping
contributes `mapping[0].items()`, anything else is iterated directly. -/
def Source.normalize : Source α → List (String × α)
  | .mapping items => items
  | .pairs items => items

/-- A raised OS-level error: `errno` plus the message `strerror`. -/
structure IOErr where
  errno : Nat
  strerror : String
deriving DecidableEq, Repr

/-- The Python exceptions observable through this module: `IOError` (the
only kind `from_file` catches), `TypeError` (raised by
`update_from_mapping`), `AttributeError` (raised by `.isupper` on a
non-string), and any other exception a deserializer may raise. -/
inductive PyExc where
  | ioError (e : IOErr)
  | typeError (msg : String)
  | attributeError (msg : String)
  | other (name : String)
deriving DecidableEq, Repr

/-- `Config.update_from_mapping(self, *mapping, **kwargs)` (config.py lines
79-104).  Returns the resulting store together with the raised exception or
the returned indicator.  The length check happens before any write, so the
error branch leaves the store untouched; otherwise the batches are the
normalized positional sources followed by `kwargs.items()`, each swept by
the filtered write loop. -/
def update_from_mapping (self : Store α) (mapping : List (Source α))
    (kwargs : List (String × α)) : Store α × Except PyExc Bool :=
  if mapping.length > 1 then
    (self, .error (.typeError
      ("Config mapping expected at most 1 argument, got " ++ toString mapping.length)))
  else
    ((mapping.map Source.normalize ++ [kwargs]).foldl loadPairs self, .ok true)

/-- `errno.ENOENT`. -/
def ENOENT : Nat := 2

/-- `errno.EISDIR`. -/
def EISDIR : Nat := 21

/-- `Config.from_file(self, filepath, loader, silent=False)` (config.py
lines 48-77).  `openResult` is the outcome of `open(filepath)`;
`loader` is the outcome of the caller-supplied deserializer on the opened
file (consulted only when the open succeeded).  The `try` block covers
both, and its `except IOError` clause silences ENOENT/EISDIR under
`silent`, otherwise annotates `strerror` and re-raises; every other
exception propagates unchanged.  On success the parsed mapping is handed
to `update_from_mapping` as the single positional source.
`handleIOError` is the `except IOError` clause (config.py lines 68-75),
which applies to an `IOError` raised anywhere inside the `try` block —
whether by `open` or by the loader. -/
def handleIOError (self : Store α) (e : IOErr) (silent : Bool) :
    Store α × Except PyExc Bool :=
  if silent && (e.errno == ENOENT || e.errno == EISDIR) then
    (self, .ok false)
  else
    (self, .error (.ioError ⟨e.errno, "Unable to load configuration file: " ++ e.strerror⟩))

/-- The body of `Config.from_file`: see the comment on `handleIOError`. -/
def from_file (self : Store α) (openResult : Except IOErr Unit)
    (loader : Except PyExc (List (String × α))) (silent : Bool) :
    Store α × Except PyExc Bool :=
  match openResult with
  | .error e => handleIOError self e silent
  | .ok _ =>
    match loader with
    | .error (.ioError e) => handleIOError self e silent
    | .error exc => (self, .error exc)
    | .ok confobj => update_from_mapping self [.mapping confobj] []

/-- `Config.from_yaml(self, filepath)` (config.py lines 38-46): calls
`self.from_file(filepath, yaml.safe_load)` — `silent` is left at its
default `False` — and returns `None`, discarding the indicator.
`yamlLoad` is the outcome of `yaml.safe_load` on the opened file. -/
def from_yaml (self : Store α) (openResult : Except IOErr Unit)
    (yamlLoad : Except PyExc (List (String × α))) : Store α × Except PyExc Unit :=
  let r := from_file self openResult yamlLoad false
  (r.1, r.2.map (fun _ => ()))

/-- The spec's description of `loadFromYAML` (spec section 4.4): exactly
`loadFromFile(path, yamlSafeDeserializer, silent)` with a caller-supplied
`silent` flag and the same return semantics. -/
def from_yaml_spec (self : Store α) (openResult : Except IOErr Unit)
    (yamlLoad : Except PyExc (List (String × α))) (silent : Bool) :
    Store α × Except PyExc Bool :=
  from_file self openResult yamlLoad silent

/-- A Python dict key as seen by the write loop: a string, or a value of
some other type (carried by a printable form), on which the attribute
access `key.isupper` raises `AttributeError`. -/
inductive PyKey where
  | str (s : String)
  | nonStr (typeName : String)
deriving DecidableEq, Repr

/-- The write loop of `update_from_mapping` (config.py lines 100-102) over
a pair batch whose keys need not be strings: `key.isupper()` on a
non-string key raises `AttributeError`, ending the sweep there; the writes
already made stay in the store (the loop mutates `self` in place with no
rollback). -/
def update_pairs_raw (self : Store α) : List (PyKey × α) → Store α × Option PyExc
  | [] => (self, none)
  | (PyKey.str k, v) :: rest =>
    update_pairs_raw (if str_isupper k then setKey self k v else self) rest
  | (PyKey.nonStr t, _) :: _ =>
    (self, some (.attributeError (t ++ " object has no attribute isupper")))

/-- One call to any of the four load operations, with its external inputs.
`applyOp` returns the store after the call, whether or not it raised. -/
inductive Op (α : Type) where
  | fromObject (obj : List (String × α))
  | fromMapping (mapping : List (Source α)) (kwargs : List (String × α))
  | fromFile (openResult : Except IOErr Unit)
      (loader : Except PyExc (List (String × α))) (silent : Bool)
  | fromYaml (openResult : Except IOErr Unit)
      (yamlLoad : Except PyExc (List (String × α)))

/-- The store after one load call. -/
def applyOp (s : Store α) : Op α → Store α
  | .fromObject obj => from_object s obj
  | .fromMapping m k => (update_from_mapping s m k).1
  | .fromFile o l si => (from_file s o l si).1
  | .fromYaml o l => (from_yaml s o l).1

/-- The store after a sequence of load calls. -/
def runOps (s : Store α) (ops : List (Op α)) : Store α :=
  ops.foldl applyOp s

/-- Every key held by the store satisfies the uppercase predicate. -/
def allKeysUpper (s : Store α) : Bool :=
  s.all (fun p => str_isupper p.1)

/-- The last value written to key `k` by the filtered write loop on the
batch `m`, if any. -/
def lastW (m : List (String × α)) (k : String) : Option α :=
  m.foldl (fun acc p => if str_isupper p.1 && p.1 == k then some p.2 else acc) none

/-- Pointwise effect of a full sweep of the filtered write loop on an entry
already present in the store. -/
def rewriteBy (m : List (String × α)) (p : String × α) : String × α :=
  match lastW m p.1 with
  | some v => (p.1, v)
  | none => p

/-! ### The code's case predicate agrees with the spec's wording -/

theorem toNat_ofNat_small (n : Nat) (h : n < 55296) : (Char.ofNat n).toNat = n := by
  rw [Char.ofNat, dif_pos (Or.inl h)]
  rfl

theorem isLower_iff_toNat (c : Char) : c.isLower = true ↔ 97 ≤ c.toNat ∧ c.toNat ≤ 122 := by
  simp [Char.isLower, UInt32.le_def, BitVec.le_def, Char.toNat, UInt32.toNat]

theorem toUpper_eq_self_iff (c : Char) : (Char.toUpper c = c) ↔ c.isLower = false := by
  rw [Char.toUpper]
  by_cases h : 97 ≤ c.toNat ∧ c.toNat ≤ 122
  · rw [if_pos (by exact ⟨h.1, h.2⟩)]
    constructor
    · intro heq
      have h1 : (Char.ofNat (c.toNat - 32)).toNat = c.toNat - 32 :=
        toNat_ofNat_small _ (by omega)
      rw [heq] at h1
      omega
    · intro hl
      have hl2 := (isLower_iff_toNat c).2 h
      rw [hl] at hl2
      exact absurd hl2 (by simp)
  · rw [if_neg (by exact fun hc => h ⟨hc.1, hc.2⟩)]
    refine ⟨fun _ => ?_, fun _ => rfl⟩
    cases hl : c.isLower with
    | false => rfl
    | true => exact absurd ((isLower_iff_toNat c).1 hl) h

theorem all_not_lower_iff (l : List Char) :
    (l.all (fun c => !c.isLower) = true) ↔ l.map Char.toUpper = l := by
  induction l with
  | nil => simp
  | cons c cs ih =>
    simp [ih, toUpper_eq_self_iff, Bool.not_eq_true', and_comm]

/-- Python's `isupper` (as embedded) coincides with the spec's uppercase
predicate: the string equals its own uppercase transform and has at least
one alphabetic character. -/
theorem str_isupper_eq_spec (s : String) : str_isupper s = spec_upper_pred s := by
  unfold str_isupper spec_upper_pred upperTransform
  have h1 : (s.data.all (fun c => !c.isLower)) = (s.data.map Char.toUpper == s.data) := by
    rw [Bool.eq_iff_iff, all_not_lower_iff]
    exact (beq_iff_eq).symm
  have h2 : (s.data.any (fun c => c.isUpper || c.isLower)) = s.data.any Char.isAlpha := rfl
  rw [h1, h2]

/-! ### Basic store lemmas -/

theorem hasKey_iff {s : Store α} {k : String} :
    hasKey s k = true ↔ ∃ p ∈ s, p.1 = k := by
  simp [hasKey, List.any_eq_true]

theorem fst_replaceVal (k : String) (v : α) (p : String × α) :
    (replaceVal k v p).1 = p.1 := by
  unfold replaceVal
  by_cases h : (p.1 == k) = true
  · rw [if_pos h]
    exact (eq_of_beq h).symm
  · rw [if_neg h]

theorem fst_rewriteBy (m : List (String × α)) (p : String × α) :
    (rewriteBy m p).1 = p.1 := by
  unfold rewriteBy
  cases lastW m p.1 <;> rfl

theorem hasKey_map_fst_preserving {s : Store α} {f : String × α → String × α}
    (hf : ∀ p, (f p).1 = p.1) (k : String) :
    hasKey (s.map f) k = hasKey s k := by
  unfold hasKey
  induction s with
  | nil => rfl
  | cons p ps ih =>
    rw [List.map_cons, List.any_cons, List.any_cons, hf p, ih]

theorem hasKey_setKey_self (s : Store α) (k : String) (v : α) :
    hasKey (setKey s k v) k = true := by
  unfold setKey
  by_cases h : hasKey s k = true
  · rw [if_pos h]
    rcases hasKey_iff.mp h with ⟨p, hp, hpk⟩
    apply hasKey_iff.mpr
    exact ⟨replaceVal k v p, List.mem_map_of_mem _ hp, by rw [fst_replaceVal, hpk]⟩
  · rw [if_neg h]
    apply hasKey_iff.mpr
    exact ⟨(k, v), by simp, rfl⟩

theorem hasKey_setKey_mono {s : Store α} {k2 : String} (k : String) (v : α)
    (h : hasKey s k2 = true) : hasKey (setKey s k v) k2 = true := by
  unfold setKey
  by_cases hk : hasKey s k = true
  · rw [if_pos hk, hasKey_map_fst_preserving (fst_replaceVal k v)]
    exact h
  · rw [if_neg hk]
    unfold hasKey at h ⊢
    rw [List.any_append, h, Bool.true_or]

theorem mem_setKey {p2 : String × α} {s : Store α} {k : String} {v : α}
    (hmem : p2 ∈ setKey s k v) : p2 = (k, v) ∨ (p2.1 ≠ k ∧ p2 ∈ s) := by
  unfold setKey at hmem
  by_cases h : hasKey s k = true
  · rw [if_pos h] at hmem
    rcases List.mem_map.mp hmem with ⟨p, hp, hfp⟩
    unfold replaceVal at hfp
    by_cases hpk : (p.1 == k) = true
    · rw [if_pos hpk] at hfp
      exact Or.inl hfp.symm
    · rw [if_neg hpk] at hfp
      refine Or.inr ⟨?_, hfp ▸ hp⟩
      rw [← hfp]
      intro hc
      exact hpk (beq_iff_eq.mpr hc)
  · rw [if_neg h] at hmem
    rcases List.mem_append.mp hmem with hin | hone
    · refine Or.inr ⟨?_, hin⟩
      intro hc
      exact h (hasKey_iff.mpr ⟨p2, hin, hc⟩)
    · exact Or.inl (List.mem_singleton.mp hone)

theorem getKey_setKey_self (s : Store α) (k : String) (v : α) :
    getKey (setKey s k v) k = some v := by
  unfold setKey
  by_cases h : hasKey s k = true
  · rw [if_pos h]
    unfold getKey
    induction s with
    | nil => simp [hasKey] at h
    | cons p ps ih =>
      rw [List.map_cons]
      by_cases hp : (p.1 == k) = true
      · rw [show replaceVal k v p = (k, v) from if_pos hp]
        rw [List.find?_cons_of_pos _ (by simp)]
        rfl
      · rw [show replaceVal k v p = p from if_neg hp]
        rw [List.find?_cons_of_neg _ (by simpa using hp)]
        apply ih
        unfold hasKey at h
        rw [List.any_cons, Bool.or_eq_true] at h
        rcases h with h | h
        · exact absurd h hp
        · exact h
  · rw [if_neg h]
    unfold getKey
    rw [List.find?_append]
    have hnone : List.find? (fun p => p.1 == k) s = none := by
      rw [List.find?_eq_none]
      intro p hp hb
      exact h (hasKey_iff.mpr ⟨p, hp, eq_of_beq hb⟩)
    rw [hnone]
    simp

theorem find?_map_replaceVal_ne (s : Store α) (k k2 : String) (v : α) (h : k2 ≠ k) :
    List.find? (fun p => p.1 == k2) (s.map (replaceVal k v))
      = List.find? (fun p => p.1 == k2) s := by
  induction s with
  | nil => rfl
  | cons p ps ih =>
    rw [List.map_cons]
    by_cases hp : (p.1 == k) = true
    · rw [show replaceVal k v p = (k, v) from if_pos hp]
      rw [List.find?_cons_of_neg _ (by simp [Ne.symm h])]
      rw [List.find?_cons_of_neg _ (by simp [eq_of_beq hp, Ne.symm h])]
      exact ih
    · rw [show replaceVal k v p = p from if_neg hp]
      rw [List.find?_cons, List.find?_cons]
      cases hpt : (p.1 == k2) <;> simp [ih]

theorem getKey_setKey_ne (s : Store α) (k k2 : String) (v : α) (h : k2 ≠ k) :
    getKey (setKey s k v) k2 = getKey s k2 := by
  unfold setKey
  by_cases hk : hasKey s k = true
  · rw [if_pos hk]
    unfold getKey
    rw [find?_map_replaceVal_ne s k k2 v h]
  · rw [if_neg hk]
    unfold getKey
    rw [List.find?_append]
    have hone : List.find? (fun p => p.1 == k2) [(k, v)] = none := by
      simp [Ne.symm h]
    rw [hone]
    cases List.find? (fun p => p.1 == k2) s <;> rfl

/-! ### The filtered write loop -/

theorem loadPairs_append (s : Store α) (m1 m2 : List (String × α)) :
    loadPairs s (m1 ++ m2) = loadPairs (loadPairs s m1) m2 := by
  unfold loadPairs
  rw [List.foldl_append]

theorem lastW_append_one (m : List (String × α)) (q : String × α) (k : String) :
    lastW (m ++ [q]) k
      = if str_isupper q.1 && q.1 == k then some q.2 else lastW m k := by
  unfold lastW
  rw [List.foldl_append]
  rfl

theorem hasKey_loadPair_mono {s : Store α} {k : String} (q : String × α)
    (h : hasKey s k = true) : hasKey (loadPair s q) k = true := by
  unfold loadPair
  by_cases hu : str_isupper q.1 = true
  · rw [if_pos hu]
    exact hasKey_setKey_mono q.1 q.2 h
  · rw [if_neg hu]
    exact h

theorem hasKey_loadPairs_mono {s : Store α} {k : String} (m : List (String × α))
    (h : hasKey s k = true) : hasKey (loadPairs s m) k = true := by
  induction m generalizing s with
  | nil => exact h
  | cons q m ih => exact ih (hasKey_loadPair_mono q h)

theorem hasKey_loadPairs_of_mem {s : Store α} {m : List (String × α)} {p : String × α}
    (hp : p ∈ m) (hu : str_isupper p.1 = true) :
    hasKey (loadPairs s m) p.1 = true := by
  induction m generalizing s with
  | nil => cases hp
  | cons q m ih =>
    rcases List.mem_cons.mp hp with rfl | hmem
    · show hasKey (loadPairs (loadPair s p) m) p.1 = true
      apply hasKey_loadPairs_mono
      unfold loadPair
      rw [if_pos hu]
      exact hasKey_setKey_self s p.1 p.2
    · exact ih hmem

/-- Lookup after a sweep of the filtered write loop: the last filtered write
to the key wins, and a key the batch never writes keeps its prior binding. -/
theorem getKey_loadPairs (s : Store α) (m : List (String × α)) (k : String) :
    getKey (loadPairs s m) k
      = match lastW m k with
        | some v => some v
        | none => getKey s k := by
  induction m using List.reverseRecOn with
  | nil => rfl
  | append_singleton m q ih =>
    rw [loadPairs_append, lastW_append_one]
    show getKey (loadPair (loadPairs s m) q) k = _
    unfold loadPair
    by_cases hu : str_isupper q.1 = true
    · by_cases hk : (q.1 == k) = true
      · rw [if_pos hu, hu, hk]
        have hqk : q.1 = k := eq_of_beq hk
        rw [← hqk, getKey_setKey_self]
        simp
      · rw [if_pos hu, hu]
        have hk2 : (q.1 == k) = false := by simpa using hk
        rw [hk2, getKey_setKey_ne _ _ _ _ (fun hc => hk (beq_iff_eq.mpr hc.symm))]
        simpa using ih
    · rw [if_neg hu]
      rw [show str_isupper q.1 = false from by simpa using hu]
      simpa using ih

/-- A full sweep over a batch whose filtered keys are all already present
rewrites the store in place, entry by entry. -/
theorem loadPairs_of_keys_present (m : List (String × α)) (t : Store α)
    (h : ∀ p ∈ m, str_isupper p.1 = true → hasKey t p.1 = true) :
    loadPairs t m = t.map (rewriteBy m) := by
  induction m using List.reverseRecOn with
  | nil =>
    show t = t.map (rewriteBy [])
    have : ∀ p : String × α, rewriteBy [] p = p := fun p => rfl
    calc t = t.map id := (List.map_id t).symm
    _ = t.map (rewriteBy []) := List.map_congr_left (fun p _ => (this p).symm)
  | append_singleton m q ih =>
    rw [loadPairs_append]
    have hm : ∀ p ∈ m, str_isupper p.1 = true → hasKey t p.1 = true :=
      fun p hp => h p (List.mem_append_left _ hp)
    rw [ih hm]
    show loadPair (t.map (rewriteBy m)) q = _
    unfold loadPair
    by_cases hu : str_isupper q.1 = true
    · rw [if_pos hu]
      have hkt : hasKey t q.1 = true := h q (by simp) hu
      have hk : hasKey (t.map (rewriteBy m)) q.1 = true := by
        rw [hasKey_map_fst_preserving (fst_rewriteBy m) q.1]
        exact hkt
      unfold setKey
      rw [if_pos hk, List.map_map]
      apply List.map_congr_left
      intro p _
      show replaceVal q.1 q.2 (rewriteBy m p) = rewriteBy (m ++ [q]) p
      unfold replaceVal
      by_cases hpq : (p.1 = q.1)
      · rw [if_pos (by rw [fst_rewriteBy, hpq]; exact beq_self_eq_true q.1)]
        unfold rewriteBy
        rw [lastW_append_one, hu, show (q.1 == p.1) = true from beq_iff_eq.mpr hpq.symm]
        simp [hpq]
      · rw [if_neg (by rw [fst_rewriteBy]; simpa using hpq)]
        unfold rewriteBy
        rw [lastW_append_one, hu, show (q.1 == p.1) = false from by simpa using fun hc => hpq hc.symm]
        rfl
    · rw [if_neg hu]
      apply List.map_congr_left
      intro p _
      unfold rewriteBy
      rw [lastW_append_one, show str_isupper q.1 = false from by simpa using hu]
      rfl

/-- Every entry left by a sweep carries the batch's last filtered value for
its key, when the batch writes that key at all. -/
theorem mem_loadPairs_val (m : List (String × α)) (s : Store α) :
    ∀ p2 ∈ loadPairs s m, ∀ v, lastW m p2.1 = some v → p2.2 = v := by
  induction m using List.reverseRecOn with
  | nil =>
    intro p2 _ v hv
    cases hv
  | append_singleton m q ih =>
    rw [loadPairs_append]
    intro p2 hmem v hv
    rw [lastW_append_one] at hv
    revert hmem
    show p2 ∈ loadPair (loadPairs s m) q → _
    unfold loadPair
    by_cases hu : str_isupper q.1 = true
    · rw [if_pos hu]
      intro hmem
      rcases mem_setKey hmem with rfl | ⟨hne, hin⟩
      · rw [hu, show ((q.1, q.2).1 == (q.1, q.2).1) = true from beq_self_eq_true q.1] at hv
        simp only [Bool.true_and] at hv
        cases hv
        rfl
      · rw [hu, show (q.1 == p2.1) = false from by simpa using fun hc => hne hc.symm] at hv
        simp only [Bool.true_and] at hv
        exact ih p2 hin v hv
    · rw [if_neg hu]
      intro hmem
      rw [show str_isupper q.1 = false from by simpa using hu] at hv
      simp only [Bool.false_and] at hv
      exact ih p2 hmem v hv

/-- One sweep of the filtered write loop is idempotent. -/
theorem loadPairs_idem (s : Store α) (m : List (String × α)) :
    loadPairs (loadPairs s m) m = loadPairs s m := by
  have hkeys : ∀ p ∈ m, str_isupper p.1 = true → hasKey (loadPairs s m) p.1 = true :=
    fun p hp hu => hasKey_loadPairs_of_mem hp hu
  rw [loadPairs_of_keys_present m _ hkeys]
  have hfix : ∀ p2 ∈ loadPairs s m, rewriteBy m p2 = p2 := by
    intro p2 hmem
    unfold rewriteBy
    cases hv : lastW m p2.1 with
    | none => rfl
    | some v =>
      have h2 := mem_loadPairs_val m s p2 hmem v hv
      cases p2
      simp_all
  calc (loadPairs s m).map (rewriteBy m)
      = (loadPairs s m).map id := List.map_congr_left (fun p hp => hfix p hp)
    _ = loadPairs s m := List.map_id _

/-! ### Batch folds and the invariant -/

theorem foldl_loadPairs_flatten (L : List (List (String × α))) (s : Store α) :
    L.foldl loadPairs s = loadPairs s L.flatten := by
  induction L generalizing s with
  | nil => rfl
  | cons l L ih =>
    rw [List.foldl_cons, ih, List.flatten_cons, loadPairs_append]

theorem update_from_mapping_store (s : Store α) (srcs : List (Source α))
    (kwargs : List (String × α)) (h : ¬ srcs.length > 1) :
    (update_from_mapping s srcs kwargs).1
      = loadPairs s ((srcs.map Source.normalize ++ [kwargs]).flatten) := by
  unfold update_from_mapping
  rw [if_neg h]
  exact foldl_loadPairs_flatten _ s

theorem allKeysUpper_setKey {s : Store α} {k : String} {v : α}
    (h : allKeysUpper s = true) (hk : str_isupper k = true) :
    allKeysUpper (setKey s k v) = true := by
  unfold setKey
  by_cases hh : hasKey s k = true
  · rw [if_pos hh]
    unfold allKeysUpper at h ⊢
    rw [List.all_eq_true] at h ⊢
    intro p hp
    rcases List.mem_map.mp hp with ⟨p0, hp0, rfl⟩
    show str_isupper (replaceVal k v p0).1 = true
    rw [fst_replaceVal]
    exact h p0 hp0
  · rw [if_neg hh]
    unfold allKeysUpper at h ⊢
    rw [List.all_append, h, List.all_cons]
    simpa using hk

theorem allKeysUpper_loadPair {s : Store α} (q : String × α)
    (h : allKeysUpper s = true) : allKeysUpper (loadPair s q) = true := by
  unfold loadPair
  by_cases hu : str_isupper q.1 = true
  · rw [if_pos hu]
    exact allKeysUpper_setKey h hu
  · rw [if_neg hu]
    exact h

theorem allKeysUpper_loadPairs {s : Store α} (m : List (String × α))
    (h : allKeysUpper s = true) : allKeysUpper (loadPairs s m) = true := by
  induction m generalizing s with
  | nil => exact h
  | cons q m ih => exact ih (allKeysUpper_loadPair q h)

theorem allKeysUpper_update_from_mapping {s : Store α} (srcs : List (Source α))
    (kwargs : List (String × α)) (h : allKeysUpper s = true) :
    allKeysUpper (update_from_mapping s srcs kwargs).1 = true := by
  unfold update_from_mapping
  by_cases hl : srcs.length > 1
  · rw [if_pos hl]
    exact h
  · rw [if_neg hl]
    show allKeysUpper (List.foldl loadPairs s _) = true
    rw [foldl_loadPairs_flatten]
    exact allKeysUpper_loadPairs _ h

theorem handleIOError_store (s : Store α) (e : IOErr) (si : Bool) :
    (handleIOError s e si).1 = s := by
  unfold handleIOError
  by_cases hsi : (si && (e.errno == ENOENT || e.errno == EISDIR)) = true
  · rw [if_pos hsi]
  · rw [if_neg hsi]

theorem allKeysUpper_from_file {s : Store α} (o : Except IOErr Unit)
    (l : Except PyExc (List (String × α))) (si : Bool)
    (h : allKeysUpper s = true) : allKeysUpper (from_file s o l si).1 = true := by
  cases o with
  | error e =>
    show allKeysUpper (handleIOError s e si).1 = true
    rw [handleIOError_store]
    exact h
  | ok u =>
    cases l with
    | ok confobj => exact allKeysUpper_update_from_mapping _ _ h
    | error exc =>
      cases exc with
      | ioError e =>
        show allKeysUpper (handleIOError s e si).1 = true
        rw [handleIOError_store]
        exact h
      | typeError m => exact h
      | attributeError m => exact h
      | other n => exact h

theorem allKeysUpper_applyOp {s : Store α} (op : Op α)
    (h : allKeysUpper s = true) : allKeysUpper (applyOp s op) = true := by
  cases op with
  | fromObject obj => exact allKeysUpper_loadPairs obj h
  | fromMapping m k => exact allKeysUpper_update_from_mapping m k h
  | fromFile o l si => exact allKeysUpper_from_file o l si h
  | fromYaml o l =>
    show allKeysUpper (from_file s o l false).1 = true
    exact allKeysUpper_from_file o l false h

theorem allKeysUpper_foldl_setKey (l : List (String × α)) (acc : Store α)
    (hacc : allKeysUpper acc = true) (h : ∀ p ∈ l, str_isupper p.1 = true) :
    allKeysUpper (l.foldl (fun s p => setKey s p.1 p.2) acc) = true := by
  induction l generalizing acc with
  | nil => exact hacc
  | cons p l ih =>
    rw [List.foldl_cons]
    exact ih _ (allKeysUpper_setKey hacc (h p (by simp)))
      (fun q hq => h q (by simp [hq]))

theorem allKeysUpper_runOps {s : Store α} (ops : List (Op α))
    (h : allKeysUpper s = true) : allKeysUpper (runOps s ops) = true := by
  induction ops generalizing s with
  | nil => exact h
  | cons op ops ih =>
    show allKeysUpper (runOps (applyOp s op) ops) = true
    exact ih (allKeysUpper_applyOp op h)

theorem getKey_loadPair_single (s : Store α) (K : String) (V : α) :
    getKey (loadPair s (K, V)) K
      = (if spec_upper_pred K = true then some V else getKey s K) := by
  unfold loadPair
  rw [show str_isupper (K, V).1 = spec_upper_pred K from str_isupper_eq_spec K]
  by_cases hu : spec_upper_pred K = true
  · rw [if_pos hu, if_pos hu]
    exact getKey_setKey_self s K V
  · rw [if_neg hu, if_neg hu]

/-! ### Claims -/

/-- C1, counterexample: the claim fails at construction — `Config.__init__`
copies the defaults mapping into the store with no filtering, so a
defaults mapping with the lowercase key "lower" leaves that key in the
store even though it fails the uppercase predicate. -/
theorem C1_counterexample :
    getKey (Config.init [("lower", (1 : Nat))]) "lower" = some 1 ∧
    str_isupper "lower" = false ∧
    allKeysUpper (Config.init [("lower", (1 : Nat))]) = false := by
  decide

/-- C1 (amended): the four load operations never add a key that fails the
uppercase predicate, so if every key of the defaults mapping supplied at
construction satisfies the predicate, then after any sequence of load
operations every key in the store still satisfies it. -/
theorem C1_invariant (defaults : List (String × α)) (ops : List (Op α))
    (h : ∀ p ∈ defaults, str_isupper p.1 = true) :
    allKeysUpper (runOps (Config.init defaults) ops) = true :=
  allKeysUpper_runOps ops (allKeysUpper_foldl_setKey defaults [] rfl h)

/-- Witness for C1: concrete defaults and a concrete load sequence. -/
theorem C1_witness :
    (∀ p ∈ [("A", (1 : Nat))], str_isupper p.1 = true) ∧
    allKeysUpper (runOps (Config.init [("A", (1 : Nat))])
      [Op.fromMapping [Source.mapping [("B", 2), ("c", 3)]] []]) = true :=
  ⟨by decide, C1_invariant [("A", (1 : Nat))]
    [Op.fromMapping [Source.mapping [("B", 2), ("c", 3)]] []] (by decide)⟩

/-- C2, counterexample: `from_yaml` takes no `silent` flag, behaves as
`silent = False`, and discards the indicator: on a missing file it raises
the annotated error, whereas `from_file` with the YAML deserializer and
`silent = true` returns the indicator `false`.  So `from_yaml` does not
have the same error behaviour as `from_file` for every `silent` value. -/
theorem C2_counterexample :
    (from_yaml ([] : Store Nat) (.error ⟨2, "No such file or directory"⟩) (.ok [])).2
      = .error (.ioError ⟨2, "Unable to load configuration file: No such file or directory"⟩) ∧
    from_yaml_spec ([] : Store Nat) (.error ⟨2, "No such file or directory"⟩) (.ok []) true
      = ([], .ok false) := by
  exact ⟨rfl, rfl⟩

/-- C2 (amended): `from_yaml` is `from_file` with the YAML deserializer and
`silent` fixed to its default `False`, with the success indicator discarded
(the method returns `None`). -/
theorem C2_from_yaml_refines (s : Store α) (o : Except IOErr Unit)
    (l : Except PyExc (List (String × α))) :
    from_yaml s o l
      = ((from_yaml_spec s o l false).1,
          (from_yaml_spec s o l false).2.map (fun _ => ())) := rfl

/-- C3: when the open fails with ENOENT or EISDIR and `silent` is true the
call returns `false` with the store unchanged; with `silent` false the
error is re-raised with the configuration-load annotation layered over the
preserved OS detail; any other open error is re-raised annotated for every
`silent` value. -/
theorem C3_from_file_open_errors (s : Store α)
    (loader : Except PyExc (List (String × α))) (e : IOErr) :
    ((e.errno = ENOENT ∨ e.errno = EISDIR) →
      from_file s (.error e) loader true = (s, .ok false)) ∧
    (from_file s (.error e) loader false
      = (s, .error (.ioError
          ⟨e.errno, "Unable to load configuration file: " ++ e.strerror⟩))) ∧
    (¬(e.errno = ENOENT ∨ e.errno = EISDIR) → ∀ silent,
      from_file s (.error e) loader silent
        = (s, .error (.ioError
            ⟨e.errno, "Unable to load configuration file: " ++ e.strerror⟩))) := by
  refine ⟨?_, ?_, ?_⟩
  · intro h
    show handleIOError s e true = (s, .ok false)
    unfold handleIOError
    rw [if_pos (by rcases h with h | h <;> simp [h, ENOENT, EISDIR])]
  · show handleIOError s e false = _
    unfold handleIOError
    rw [if_neg (by simp)]
  · intro h silent
    show handleIOError s e silent = _
    unfold handleIOError
    rw [if_neg ?_]
    push_neg at h
    simp only [Bool.and_eq_true, Bool.or_eq_true, beq_iff_eq]
    rintro ⟨-, h2 | h2⟩
    · exact h.1 h2
    · exact h.2 h2

/-- Witness for C3: a missing file (errno 2) silenced, and a
permission-denied error (errno 13) raised even under `silent = true`. -/
theorem C3_witness :
    (((2 : Nat) = ENOENT ∨ (2 : Nat) = EISDIR) ∧
      from_file ([] : Store Nat) (.error ⟨2, "No such file or directory"⟩) (.ok []) true
        = ([], .ok false)) ∧
    ((¬((13 : Nat) = ENOENT ∨ (13 : Nat) = EISDIR)) ∧
      from_file ([] : Store Nat) (.error ⟨13, "Permission denied"⟩) (.ok []) true
        = ([], .error (.ioError
            ⟨13, "Unable to load configuration file: Permission denied"⟩))) :=
  ⟨⟨by decide, (C3_from_file_open_errors [] (.ok []) ⟨2, "No such file or directory"⟩).1
      (by decide)⟩,
   ⟨by decide, (C3_from_file_open_errors [] (.ok []) ⟨13, "Permission denied"⟩).2.2
      (by decide) true⟩⟩

/-- C4: the code's `isupper` filter coincides with the spec's uppercase
predicate (equal to its own uppercase transform and containing an
alphabetic character), and loading the single-pair mapping `{K: V}` through
each of the four load paths binds `K -> V` exactly when the predicate
holds, leaving the prior binding for `K` untouched otherwise. -/
theorem C4_single_pair (K : String) (V : α) (s : Store α) :
    str_isupper K = spec_upper_pred K ∧
    getKey (update_from_mapping s [Source.mapping [(K, V)]] []).1 K
      = (if spec_upper_pred K = true then some V else getKey s K) ∧
    getKey (from_object s [(K, V)]) K
      = (if spec_upper_pred K = true then some V else getKey s K) ∧
    getKey (from_file s (.ok ()) (.ok [(K, V)]) false).1 K
      = (if spec_upper_pred K = true then some V else getKey s K) ∧
    getKey (from_yaml s (.ok ()) (.ok [(K, V)])).1 K
      = (if spec_upper_pred K = true then some V else getKey s K) := by
  refine ⟨str_isupper_eq_spec K, ?_, ?_, ?_, ?_⟩
  · show getKey (loadPair s (K, V)) K = _
    exact getKey_loadPair_single s K V
  · show getKey (loadPair s (K, V)) K = _
    exact getKey_loadPair_single s K V
  · show getKey (loadPair s (K, V)) K = _
    exact getKey_loadPair_single s K V
  · show getKey (loadPair s (K, V)) K = _
    exact getKey_loadPair_single s K V

/-- C5: more than one positional source makes `update_from_mapping` raise
the `TypeError` immediately, with the store completely unchanged. -/
theorem C5_multi_positional (s : Store α) (srcs : List (Source α))
    (kwargs : List (String × α)) (h : srcs.length > 1) :
    update_from_mapping s srcs kwargs
      = (s, .error (.typeError
          ("Config mapping expected at most 1 argument, got "
            ++ toString srcs.length))) := by
  unfold update_from_mapping
  rw [if_pos h]

/-- Witness for C5: two positional sources. -/
theorem C5_witness :
    ([Source.mapping [("A", (1 : Nat))], Source.mapping [("B", 2)]].length > 1) ∧
    update_from_mapping ([] : Store Nat)
        [Source.mapping [("A", 1)], Source.mapping [("B", 2)]] []
      = ([], .error (.typeError "Config mapping expected at most 1 argument, got 2")) :=
  ⟨by decide,
    C5_multi_positional [] [Source.mapping [("A", 1)], Source.mapping [("B", 2)]] []
      (by decide)⟩

/-- C6, counterexample: a deserializer error is not always propagated — the
`try` block of `from_file` also covers the `loader(f)` call, so an
`IOError` with errno ENOENT raised by the deserializer is swallowed under
`silent = true` and the call returns `false` instead of propagating it. -/
theorem C6_counterexample :
    from_file ([] : Store Nat) (.ok ()) (.error (.ioError ⟨2, "boom"⟩)) true
      = ([], .ok false) ∧
    (Except.ok false : Except PyExc Bool) ≠ .error (.ioError ⟨2, "boom"⟩) :=
  ⟨rfl, fun h => Except.noConfusion h⟩

/-- C6 (amended): an error raised by the deserializer propagates unchanged
and uncaught for every `silent` value unless it is an `IOError`; an
`IOError` from the deserializer receives exactly the file-open error
treatment (`handleIOError`): silenced when `silent` and ENOENT/EISDIR,
otherwise re-raised annotated. -/
theorem C6_deserializer_errors (s : Store α) (silent : Bool) :
    (∀ msg, from_file s (.ok ()) (.error (.typeError msg)) silent
      = (s, .error (.typeError msg))) ∧
    (∀ msg, from_file s (.ok ()) (.error (.attributeError msg)) silent
      = (s, .error (.attributeError msg))) ∧
    (∀ name, from_file s (.ok ()) (.error (.other name)) silent
      = (s, .error (.other name))) ∧
    (∀ e : IOErr, from_file s (.ok ()) (.error (.ioError e)) silent
      = handleIOError s e silent) ∧
    (∀ (e : IOErr) (loader : Except PyExc (List (String × α))),
      from_file s (.error e) loader silent = handleIOError s e silent) :=
  ⟨fun _ => rfl, fun _ => rfl, fun _ => rfl, fun _ => rfl, fun _ _ => rfl⟩

/-- C7: the positional batch is processed first and the keyword batch
second, so a key present in both ends with the keyword value; on normal
completion the call returns `true`. -/
theorem C7_kwargs_precedence :
    update_from_mapping ([] : Store Nat) [Source.mapping [("A", 1)]] [("A", 2)]
      = ([("A", 2)], .ok true) ∧
    (∀ (β : Type) (s : Store β) (src : Source β) (kwargs : List (String × β)),
      (update_from_mapping s [src] kwargs).1
        = loadPairs (loadPairs s src.normalize) kwargs) ∧
    (∀ (β : Type) (s : Store β) (srcs : List (Source β)) (kwargs : List (String × β)),
      ¬ srcs.length > 1 → (update_from_mapping s srcs kwargs).2 = .ok true) := by
  refine ⟨rfl, fun β s src kwargs => rfl, fun β s srcs kwargs h => ?_⟩
  unfold update_from_mapping
  rw [if_neg h]

/-- Witness for C7: a single positional source and disjoint kwargs. -/
theorem C7_witness :
    (¬ ([Source.pairs [("B", (3 : Nat))]] : List (Source Nat)).length > 1) ∧
    (update_from_mapping ([] : Store Nat) [Source.pairs [("B", 3)]] [("C", 4)]).2
      = .ok true :=
  ⟨by decide,
    C7_kwargs_precedence.2.2 Nat [] [Source.pairs [("B", 3)]] [("C", 4)] (by decide)⟩

/-- C8: loading the same positional sources and keyword bindings twice in
succession leaves exactly the store produced by loading them once — both on
the normal path (the filtered write loop is idempotent) and on the
usage-error path (where the store is untouched both times). -/
theorem C8_idempotent (s : Store α) (srcs : List (Source α))
    (kwargs : List (String × α)) :
    (update_from_mapping (update_from_mapping s srcs kwargs).1 srcs kwargs).1
      = (update_from_mapping s srcs kwargs).1 := by
  by_cases h : srcs.length > 1
  · simp only [update_from_mapping, if_pos h]
  · rw [update_from_mapping_store _ _ _ h, update_from_mapping_store _ _ _ h]
    exact loadPairs_idem s _

/-- C9: `from_object` writes exactly the attributes whose names satisfy the
uppercase predicate — lookup after the call returns the last filtered value
the attribute list provides for the key, and the prior binding otherwise;
on a source exposing `UPPER = 5` and `lower = 6` the store ends as exactly
`UPPER -> 5`, with no binding for `lower`. -/
theorem C9_from_object (s : Store α) (obj : List (String × α)) (k : String) :
    (getKey (from_object s obj) k
      = match lastW obj k with
        | some v => some v
        | none => getKey s k) ∧
    from_object ([] : Store Nat) [("UPPER", 5), ("lower", 6)] = [("UPPER", 5)] ∧
    getKey (from_object ([] : Store Nat) [("UPPER", 5), ("lower", 6)]) "UPPER"
      = some 5 ∧
    getKey (from_object ([] : Store Nat) [("UPPER", 5), ("lower", 6)]) "lower"
      = none := by
  refine ⟨?_, by decide, by decide, by decide⟩
  show getKey (loadPairs s obj) k = _
  exact getKey_loadPairs s obj k

/-- C10: the write loop of `update_from_mapping` applies writes pair by
pair with no rollback: on the batch `[("A", 1), (2, 2)]` the case check on
the non-string key `2` raises `AttributeError`, and the store retains the
write `A -> 1` made before the failing pair. -/
theorem C10_partial_write :
    update_pairs_raw ([] : Store Nat) [(PyKey.str "A", 1), (PyKey.nonStr "int", 2)]
      = ([("A", 1)], some (PyExc.attributeError "int object has no attribute isupper")) := by
  decide

end Silt
